import Mathlib

/-!
Verification of the file-system bridge of GUI.for.SingBox (`bridge/io.go`).

The Go code is shallowly embedded: paths are Lean `String`s over the Unix
separator `'/'`, the relevant parts of Go's `path/filepath` package
(`Clean`, `Join`, `Dir`, `IsAbs` — all straight ports of the Go sources for
the Unix case, where `VolumeName` is empty) are executable Lean functions,
and the operating-system state is an explicit record of existing
directories and files.  Operating-system calls that can fail for external
reasons (disk errors, permissions) take their outcome as an explicit
`Option String` argument — `none` meaning the call succeeds, `some e`
meaning it fails with error text `e` — so that every error path of the Go
code is a reachable branch of the model.
-/

namespace GFS

/-! ## Go `path/filepath` for the Unix separator -/

/-- Splits a character list at every `'/'`, keeping empty segments, exactly
like splitting a Go path on its separator.  The result is never `[]`. -/
def splitSlash : List Char → List (List Char)
  | [] => [[]]
  | c :: rest =>
    match splitSlash rest with
    | [] => [[c]]
    | g :: gs => if c = '/' then [] :: g :: gs else (c :: g) :: gs

/-- Joins segments with the separator `'/'` (inverse of `splitSlash` on
slash-free segments). -/
def joinSlash : List (List Char) → List Char
  | [] => []
  | [g] => g
  | g :: gs => g ++ '/' :: joinSlash gs

/-- One step of the element loop of Go `path.Clean`: `acc` is the output
buffer in reverse order, `c` the next path element. -/
def normStep (rooted : Bool) (acc : List (List Char)) (c : List Char) : List (List Char) :=
  if c = [] ∨ c = ['.'] then acc
  else if c = ['.', '.'] then
    match acc with
    | [] => if rooted then [] else [['.', '.']]
    | top :: rest => if top = ['.', '.'] then c :: acc else rest
  else c :: acc

/-- The element loop of Go `path.Clean`: drop empty and `"."` elements,
resolve `".."` against the output buffer. -/
def normComps (rooted : Bool) (cs : List (List Char)) : List (List Char) :=
  (cs.foldl (normStep rooted) []).reverse

/-- Prints a cleaned element list back to a path, restoring the leading
separator of a rooted path; an empty result prints as `"/"` or `"."`. -/
def renderPath (rooted : Bool) (cs : List (List Char)) : List Char :=
  if rooted then '/' :: joinSlash cs
  else if cs = [] then ['.'] else joinSlash cs

/-- Go `filepath.Clean` (Unix), on the underlying character list. -/
def cleanList (l : List Char) : List Char :=
  match l with
  | [] => ['.']
  | c :: _ => renderPath (c = '/') (normComps (c = '/') (splitSlash l))

namespace filepath

/-- Go `filepath.Clean` for the Unix separator. -/
def Clean (s : String) : String := List.asString (cleanList s.data)

/-- Go `filepath.Join` restricted to two arguments (as `UnzipZIPFile` uses
it): empty elements are skipped and the slash-joined result is `Clean`ed. -/
def Join (a b : String) : String :=
  if a = "" then (if b = "" then "" else Clean b)
  else Clean (a ++ "/" ++ b)

/-- Go `filepath.Dir` (Unix): everything up to and including the final
separator, `Clean`ed; `"."` when there is no separator. -/
def Dir (p : String) : String :=
  Clean (List.asString ((p.data.reverse.dropWhile (fun c => c != '/')).reverse))

/-- Go `filepath.IsAbs` (Unix): the path starts with the separator. -/
def IsAbs (s : String) : Bool :=
  match s.data with
  | [] => false
  | c :: _ => c = '/'

end filepath

/-- Go `strings.HasPrefix`. -/
def hasPre (s pre : String) : Bool := pre.data.isPrefixOf s.data

/-! ## Facts about `Clean` -/

theorem splitSlash_ne_nil (l : List Char) : splitSlash l ≠ [] := by
  cases l with
  | nil => simp [splitSlash]
  | cons c rest =>
    simp only [splitSlash]
    cases h : splitSlash rest with
    | nil => simp
    | cons g gs =>
      by_cases hc : c = '/' <;> simp [hc]

theorem noSlash_splitSlash (l : List Char) : ∀ g ∈ splitSlash l, '/' ∉ g := by
  induction l with
  | nil => simp [splitSlash]
  | cons c rest ih =>
    simp only [splitSlash]
    cases h : splitSlash rest with
    | nil => exact absurd h (splitSlash_ne_nil rest)
    | cons g gs =>
      have ihg : '/' ∉ g := ih g (by rw [h]; exact List.mem_cons_self _ _)
      have ihgs : ∀ x ∈ gs, '/' ∉ x := fun x hx => ih x (by rw [h]; exact List.mem_cons_of_mem _ hx)
      dsimp only
      by_cases hc : c = '/'
      · subst hc
        intro x hx
        rw [if_pos rfl] at hx
        rw [List.mem_cons, List.mem_cons] at hx
        rcases hx with rfl | rfl | hx
        · simp
        · exact ihg
        · exact ihgs _ hx
      · simp only [if_neg hc]
        intro x hx
        rw [List.mem_cons] at hx
        rcases hx with rfl | hx
        · intro hmem
          rw [List.mem_cons] at hmem
          rcases hmem with h1 | h2
          · exact hc h1.symm
          · exact ihg h2
        · exact ihgs _ hx

theorem splitSlash_single (g : List Char) (hg : '/' ∉ g) : splitSlash g = [g] := by
  induction g with
  | nil => rfl
  | cons c rest ih =>
    have hc : ¬ c = '/' := by intro h; exact hg (by simp [h])
    have hrest : '/' ∉ rest := fun h => hg (List.mem_cons_of_mem _ h)
    simp only [splitSlash, ih hrest]
    simp [hc]

theorem splitSlash_append (g t : List Char) (hg : '/' ∉ g) :
    splitSlash (g ++ '/' :: t) = g :: splitSlash t := by
  induction g with
  | nil =>
    simp only [List.nil_append, splitSlash]
    cases h : splitSlash t with
    | nil => exact absurd h (splitSlash_ne_nil t)
    | cons x xs => simp
  | cons c rest ih =>
    have hc : ¬ c = '/' := by intro h; exact hg (by simp [h])
    have hrest : '/' ∉ rest := fun h => hg (List.mem_cons_of_mem _ h)
    have : (c :: rest) ++ '/' :: t = c :: (rest ++ '/' :: t) := rfl
    rw [this]
    simp only [splitSlash]
    rw [ih hrest]
    simp [hc]

theorem splitSlash_joinSlash (gs : List (List Char)) (hne : gs ≠ [])
    (hs : ∀ g ∈ gs, '/' ∉ g) : splitSlash (joinSlash gs) = gs := by
  induction gs with
  | nil => exact absurd rfl hne
  | cons g rest ih =>
    cases rest with
    | nil =>
      simp only [joinSlash]
      exact splitSlash_single g (hs g (List.mem_cons_self _ _))
    | cons g2 rest2 =>
      have : joinSlash (g :: g2 :: rest2) = g ++ '/' :: joinSlash (g2 :: rest2) := rfl
      rw [this, splitSlash_append g _ (hs g (List.mem_cons_self _ _)),
        ih (by simp) (fun x hx => hs x (List.mem_cons_of_mem _ hx))]

/-! ## Normal forms of cleaned paths -/

/-- The `".."` path element. -/
def dotdot : List Char := ['.', '.']

/-- A path element that `Clean` keeps verbatim. -/
def goodComp (g : List Char) : Prop := g ≠ [] ∧ g ≠ ['.'] ∧ '/' ∉ g

/-- Shape of the element list produced by `normComps`: a (possibly empty)
run of `".."` elements — absent when the path is rooted — followed by kept
elements. -/
def NormalComps (rooted : Bool) (cs : List (List Char)) : Prop :=
  ∃ n cs', cs = List.replicate n dotdot ++ cs' ∧ (rooted = true → n = 0) ∧
    ∀ g ∈ cs', goodComp g ∧ g ≠ dotdot

theorem normStep_shape (rooted : Bool) (c : List Char) (bs : List (List Char)) (m : Nat)
    (hm : rooted = true → m = 0)
    (hbs : ∀ g ∈ bs, goodComp g ∧ g ≠ dotdot) (hc : '/' ∉ c) :
    ∃ bs' m', normStep rooted (bs ++ List.replicate m dotdot) c = bs' ++ List.replicate m' dotdot ∧
      (rooted = true → m' = 0) ∧ ∀ g ∈ bs', goodComp g ∧ g ≠ dotdot := by
  by_cases h1 : c = [] ∨ c = ['.']
  · exact ⟨bs, m, by simp [normStep, h1], hm, hbs⟩
  · by_cases h2 : c = dotdot
    · subst h2
      cases bs with
      | nil =>
        cases m with
        | zero =>
          cases rooted with
          | true => exact ⟨[], 0, by simp [normStep, dotdot], fun _ => rfl, by simp⟩
          | false =>
            refine ⟨[], 1, ?_, by simp, by simp⟩
            simp [normStep, dotdot]
        | succ k =>
          refine ⟨[], k + 2, ?_, fun hr => absurd (hm hr) (by simp), by simp⟩
          rw [List.nil_append, List.replicate_succ]
          simp [normStep, dotdot, List.replicate_succ]
      | cons b bs' =>
        have hb : ¬ b = ['.', '.'] := (hbs b (by simp)).2
        refine ⟨bs', m, ?_, hm, fun g hg => hbs g (by simp [hg])⟩
        simp [normStep, dotdot, hb]
    · have h2' : ¬ c = ['.', '.'] := h2
      refine ⟨c :: bs, m, ?_, hm, ?_⟩
      · simp [normStep, h1, h2']
      · intro g hg
        rcases List.mem_cons.mp hg with rfl | hg
        · push_neg at h1
          exact ⟨⟨h1.1, h1.2, hc⟩, h2⟩
        · exact hbs g hg

theorem foldl_normStep_shape (rooted : Bool) (cs : List (List Char))
    (hcs : ∀ g ∈ cs, '/' ∉ g) :
    ∀ (bs : List (List Char)) (m : Nat), (rooted = true → m = 0) →
    (∀ g ∈ bs, goodComp g ∧ g ≠ dotdot) →
    ∃ bs' m',
      cs.foldl (normStep rooted) (bs ++ List.replicate m dotdot) =
        bs' ++ List.replicate m' dotdot ∧
      (rooted = true → m' = 0) ∧ ∀ g ∈ bs', goodComp g ∧ g ≠ dotdot := by
  induction cs with
  | nil => intro bs m hm hbs; exact ⟨bs, m, rfl, hm, hbs⟩
  | cons c cs ih =>
    intro bs m hm hbs
    obtain ⟨bs1, m1, heq, hm1, hbs1⟩ := normStep_shape rooted c bs m hm hbs (hcs c (by simp))
    obtain ⟨bs2, m2, heq2, hm2, hbs2⟩ := ih (fun g hg => hcs g (by simp [hg])) bs1 m1 hm1 hbs1
    exact ⟨bs2, m2, by rw [List.foldl_cons, heq, heq2], hm2, hbs2⟩

theorem normComps_normal (rooted : Bool) (cs : List (List Char))
    (hcs : ∀ g ∈ cs, '/' ∉ g) : NormalComps rooted (normComps rooted cs) := by
  obtain ⟨bs', m', heq, hm', hbs'⟩ :=
    foldl_normStep_shape rooted cs hcs [] 0 (fun _ => rfl) (by simp)
  refine ⟨m', bs'.reverse, ?_, hm', fun g hg => hbs' g (List.mem_reverse.mp hg)⟩
  rw [normComps]
  simp only [List.nil_append, List.replicate_zero] at heq
  rw [heq, List.reverse_append, List.reverse_replicate]

theorem foldl_normStep_push (rooted : Bool) (cs : List (List Char))
    (hcs : ∀ g ∈ cs, g ≠ [] ∧ g ≠ ['.'] ∧ g ≠ dotdot) :
    ∀ acc, cs.foldl (normStep rooted) acc = cs.reverse ++ acc := by
  induction cs with
  | nil => simp
  | cons c cs ih =>
    intro acc
    have hc := hcs c (by simp)
    have hc3 : ¬ c = ['.', '.'] := hc.2.2
    have hstep : normStep rooted acc c = c :: acc := by
      simp [normStep, hc.1, hc.2.1, hc3]
    rw [List.foldl_cons, hstep, ih (fun g hg => hcs g (by simp [hg]))]
    simp

theorem foldl_normStep_dotdot (n : Nat) :
    ∀ k, (List.replicate n dotdot).foldl (normStep false) (List.replicate k dotdot) =
      List.replicate (k + n) dotdot := by
  induction n with
  | zero => intro k; simp
  | succ n ih =>
    intro k
    rw [List.replicate_succ, List.foldl_cons]
    have hstep : normStep false (List.replicate k dotdot) dotdot = List.replicate (k + 1) dotdot := by
      cases k with
      | zero => simp [normStep, dotdot]
      | succ j =>
        rw [List.replicate_succ]
        simp [normStep, dotdot, List.replicate_succ]
    rw [hstep, ih (k + 1)]
    congr 1
    omega

theorem normComps_stable (rooted : Bool) (cs : List (List Char))
    (h : NormalComps rooted cs) : normComps rooted cs = cs := by
  obtain ⟨n, cs', hdec, hn, hcs'⟩ := h
  subst hdec
  have hpush : ∀ g ∈ cs', g ≠ [] ∧ g ≠ ['.'] ∧ g ≠ dotdot :=
    fun g hg => ⟨(hcs' g hg).1.1, (hcs' g hg).1.2.1, (hcs' g hg).2⟩
  rw [normComps, List.foldl_append]
  cases rooted with
  | true =>
    rw [hn rfl]
    simp only [List.replicate_zero, List.foldl_nil, List.nil_append]
    rw [foldl_normStep_push true cs' hpush []]
    simp
  | false =>
    have h0 : (List.replicate n dotdot).foldl (normStep false) ([] : List (List Char)) =
        List.replicate n dotdot := by
      have := foldl_normStep_dotdot n 0
      simpa using this
    rw [h0, foldl_normStep_push false cs' hpush]
    rw [List.reverse_append, List.reverse_reverse, List.reverse_replicate]

theorem normalComps_facts (rooted : Bool) (cs : List (List Char))
    (h : NormalComps rooted cs) : ∀ g ∈ cs, g ≠ [] ∧ '/' ∉ g := by
  obtain ⟨n, cs', rfl, hn, hcs'⟩ := h
  intro g hg
  rcases List.mem_append.mp hg with hmem | hmem
  · have := List.eq_of_mem_replicate hmem
    subst this
    exact ⟨by simp [dotdot], by simp [dotdot]⟩
  · exact ⟨(hcs' g hmem).1.1, (hcs' g hmem).1.2.2⟩

theorem splitSlash_slashCons (x : List Char) : splitSlash ('/' :: x) = [] :: splitSlash x := by
  simp only [splitSlash]
  cases h : splitSlash x with
  | nil => exact absurd h (splitSlash_ne_nil x)
  | cons g gs => simp

theorem joinSlash_cons (g : List Char) (rest : List (List Char)) :
    ∃ t, joinSlash (g :: rest) = g ++ t := by
  cases rest with
  | nil => exact ⟨[], by simp [joinSlash]⟩
  | cons r rs => exact ⟨'/' :: joinSlash (r :: rs), rfl⟩

theorem cleanList_renderPath_true (nc : List (List Char)) (hnorm : NormalComps true nc) :
    cleanList (renderPath true nc) = renderPath true nc := by
  have hfacts := normalComps_facts true nc hnorm
  have e2 : renderPath true nc = '/' :: joinSlash nc := by simp [renderPath]
  rw [e2]
  by_cases hnil : nc = []
  · subst hnil
    rfl
  · have hsplit : splitSlash ('/' :: joinSlash nc) = [] :: nc := by
      rw [splitSlash_slashCons, splitSlash_joinSlash nc hnil (fun g hg => (hfacts g hg).2)]
    have e3 : cleanList ('/' :: joinSlash nc) =
        renderPath true (normComps true ([] :: nc)) := by
      simp [cleanList, hsplit]
    have h0 : normStep true [] [] = [] := by simp [normStep]
    have e4 : normComps true ([] :: nc) = normComps true nc := by
      simp [normComps, List.foldl_cons, h0]
    rw [e3, e4, normComps_stable true nc hnorm, e2]

theorem cleanList_renderPath_false (nc : List (List Char)) (hnorm : NormalComps false nc) :
    cleanList (renderPath false nc) = renderPath false nc := by
  have hfacts := normalComps_facts false nc hnorm
  by_cases hnil : nc = []
  · subst hnil
    rfl
  · cases nc with
    | nil => exact absurd rfl hnil
    | cons g0 rest' =>
      have hg0 := hfacts g0 (by simp)
      cases g0 with
      | nil => exact absurd rfl hg0.1
      | cons a g' =>
        have ha : ¬ a = '/' := fun h => hg0.2 (by rw [h]; simp)
        have e2 : renderPath false ((a :: g') :: rest') = joinSlash ((a :: g') :: rest') := by
          simp [renderPath]
        obtain ⟨t, ht⟩ := joinSlash_cons (a :: g') rest'
        have ht' : joinSlash ((a :: g') :: rest') = a :: (g' ++ t) := by rw [ht]; rfl
        have hsplit : splitSlash (a :: (g' ++ t)) = (a :: g') :: rest' := by
          rw [← ht', splitSlash_joinSlash _ (by simp) (fun g hg => (hfacts g hg).2)]
        have e3 : cleanList (a :: (g' ++ t)) =
            renderPath false (normComps false ((a :: g') :: rest')) := by
          simp [cleanList, hsplit, ha]
        rw [e2, ht', e3, normComps_stable false _ hnorm, e2, ht']

theorem cleanList_idem (l : List Char) : cleanList (cleanList l) = cleanList l := by
  cases l with
  | nil => rfl
  | cons c rest =>
    by_cases hc : c = '/'
    · have e1 : cleanList (c :: rest) =
          renderPath true (normComps true (splitSlash (c :: rest))) := by
        simp [cleanList, hc]
      rw [e1]
      exact cleanList_renderPath_true _ (normComps_normal _ _ (noSlash_splitSlash _))
    · have e1 : cleanList (c :: rest) =
          renderPath false (normComps false (splitSlash (c :: rest))) := by
        simp [cleanList, hc]
      rw [e1]
      exact cleanList_renderPath_false _ (normComps_normal _ _ (noSlash_splitSlash _))

theorem Clean_idem (s : String) : filepath.Clean (filepath.Clean s) = filepath.Clean s := by
  show List.asString (cleanList (cleanList s.data)) = List.asString (cleanList s.data)
  rw [cleanList_idem]

theorem cleanList_rooted (rest : List Char) :
    ∃ t, cleanList ('/' :: rest) = '/' :: t := by
  have e1 : cleanList ('/' :: rest) =
      renderPath true (normComps true (splitSlash ('/' :: rest))) := by
    simp [cleanList]
  exact ⟨joinSlash (normComps true (splitSlash ('/' :: rest))), by rw [e1]; simp [renderPath]⟩

theorem String_append_data (s t : String) : (s ++ t).data = s.data ++ t.data := by
  cases s; cases t; rfl

theorem IsAbs_Clean (s : String) (h : filepath.IsAbs s = true) :
    filepath.IsAbs (filepath.Clean s) = true := by
  unfold filepath.IsAbs at h
  cases hs : s.data with
  | nil => rw [hs] at h; simp at h
  | cons c cs =>
    rw [hs] at h
    have hc : c = '/' := of_decide_eq_true h
    subst hc
    obtain ⟨t, ht⟩ := cleanList_rooted cs
    have hdata : (filepath.Clean s).data = '/' :: t := by
      show cleanList s.data = '/' :: t
      rw [hs, ht]
    unfold filepath.IsAbs
    rw [hdata]
    simp

theorem IsAbs_append_left (base q : String) (h : filepath.IsAbs base = true) :
    filepath.IsAbs (base ++ q) = true := by
  unfold filepath.IsAbs at h ⊢
  rw [String_append_data]
  cases hs : base.data with
  | nil => rw [hs] at h; simp at h
  | cons c cs =>
    rw [hs] at h
    exact h

/-- Modelled from the spec: the path resolver `GetPath` that every bridge
operation applies to its raw path arguments is part of this repository but
is not among the provided sources.  Section 4.1 of the spec describes it as
converting a possibly relative or platform-ambiguous path into an absolute,
platform-normalized path against a base context, deterministically and
without failing; the base context is made an explicit argument, as the
spec's design notes direct. -/
def GetPath (basePath p : String) : String :=
  if filepath.IsAbs p then filepath.Clean p
  else filepath.Clean (basePath ++ "/" ++ p)

/-- C8 — the resolver is idempotent whenever the base context is an
absolute path (as a working directory is): resolving an already resolved
path returns it unchanged. -/
theorem GetPath_idempotent (basePath p : String)
    (hbase : filepath.IsAbs basePath = true) :
    GetPath basePath (GetPath basePath p) = GetPath basePath p := by
  unfold GetPath
  by_cases hp : filepath.IsAbs p = true
  · rw [if_pos hp, if_pos (IsAbs_Clean p hp), Clean_idem]
  · rw [if_neg hp]
    have habs0 : filepath.IsAbs (basePath ++ "/" ++ p) = true :=
      IsAbs_append_left (basePath ++ "/") p (IsAbs_append_left basePath "/" hbase)
    rw [if_pos (IsAbs_Clean _ habs0), Clean_idem]

/-- Witness for C8 at a concrete base context and path. -/
theorem GetPath_idempotent_witness :
    filepath.IsAbs "/data" = true ∧
      GetPath "/data" (GetPath "/data" "sub/../conf.json") =
        GetPath "/data" "sub/../conf.json" :=
  ⟨by decide, GetPath_idempotent "/data" "sub/../conf.json" (by decide)⟩

/-! ## Go `encoding/base64` `StdEncoding` (standard alphabet, padded) -/

/-- The standard base64 alphabet of `base64.StdEncoding`. -/
def b64Alphabet : List Char :=
  "ABCDEFGHIJKLMNOPQRSTUVWXYZabcdefghijklmnopqrstuvwxyz0123456789+/".data

/-- The alphabet character of a six-bit value (`'='` out of range). -/
def b64Char (n : Nat) : Char := b64Alphabet.getD n '='

/-- Index of a character in a list, if present. -/
def listIdx (c : Char) : List Char → Option Nat
  | [] => none
  | a :: rest => if a = c then some 0 else (listIdx c rest).map (· + 1)

/-- The six-bit value of an alphabet character (`none` for `'='` and every
other character outside the alphabet). -/
def sextet (c : Char) : Option Nat := listIdx c b64Alphabet

/-- The error text of Go's `base64.CorruptInputError` at byte `i`. -/
def corrupt (i : Nat) : String := "illegal base64 data at input byte " ++ toString i

/-- Go `base64.StdEncoding.EncodeToString` on a byte list (bytes as `Nat`
below 256), three input bytes to four output characters, padded. -/
def base64EncodeGroups : List Nat → List Char
  | [] => []
  | [a] => [b64Char (a / 4), b64Char (a % 4 * 16), '=', '=']
  | [a, b] => [b64Char (a / 4), b64Char (a % 4 * 16 + b / 16), b64Char (b % 16 * 4), '=']
  | a :: b :: c :: rest =>
    b64Char (a / 4) :: b64Char (a % 4 * 16 + b / 16) :: b64Char (b % 16 * 4 + c / 64) ::
      b64Char (c % 64) :: base64EncodeGroups rest

/-- Go `base64.StdEncoding.EncodeToString`. -/
def base64Encode (bs : List Nat) : String := List.asString (base64EncodeGroups bs)

/-- Counts and drops the leading `'\n'`/`'\r'` characters
(`decodeQuantum` of Go `encoding/base64` skips new line characters
wherever they occur). -/
def skipNL : List Char → Nat × List Char
  | [] => (0, [])
  | c :: rest =>
    if c = '\n' ∨ c = '\r' then
      match skipNL rest with
      | (k, r) => (k + 1, r)
    else (0, c :: rest)

/-- Go `Encoding.decodeQuantum` for `StdEncoding`, fused with the loop of
`Encoding.Decode` that calls it until the source is exhausted: `out` holds
the bytes decoded so far, `dbuf` the sextets of the current quantum (Go's
`j` is `dbuf.length`), `si` the absolute index of the next character.
As in Go, `'\n'` and `'\r'` are skipped wherever they occur (but still
counted by `si`), a padded quantum must end the input, and every
`CorruptInputError` position of `decodeQuantum` is reproduced. -/
def decodeGo (out : List Nat) (dbuf : List Nat) (si : Nat) : List Char → Except String (List Nat)
  | [] =>
    match dbuf with
    | [] => Except.ok out
    | _ => Except.error (corrupt (si - dbuf.length))
  | c :: rest =>
    match sextet c with
    | some v =>
      match dbuf with
      | [d0, d1, d2] =>
        decodeGo (out ++ [d0 * 4 + d1 / 16, d1 % 16 * 16 + d2 / 4, d2 % 4 * 64 + v])
          [] (si + 1) rest
      | _ => decodeGo out (dbuf ++ [v]) (si + 1) rest
    | none =>
      if c = '\n' ∨ c = '\r' then decodeGo out dbuf (si + 1) rest
      else if c = '=' then
        match dbuf with
        | [d0, d1] =>
          match skipNL rest with
          | (k, rest2) =>
            match rest2 with
            | [] => Except.error (corrupt (si + 1 + k))
            | c2 :: rest3 =>
              if c2 = '=' then
                match skipNL rest3 with
                | (k2, rest4) =>
                  match rest4 with
                  | [] => Except.ok (out ++ [d0 * 4 + d1 / 16])
                  | _ => Except.error (corrupt (si + 1 + k + 1 + k2))
              else Except.error (corrupt (si + k))
        | [d0, d1, d2] =>
          match skipNL rest with
          | (k, rest2) =>
            match rest2 with
            | [] => Except.ok (out ++ [d0 * 4 + d1 / 16, d1 % 16 * 16 + d2 / 4])
            | _ => Except.error (corrupt (si + 1 + k))
        | _ => Except.error (corrupt si)
      else Except.error (corrupt si)

/-- Go `base64.StdEncoding.DecodeString`. -/
def base64Decode (s : String) : Except String (List Nat) := decodeGo [] [] 0 s.data

theorem sextet_b64Char : ∀ k, k < 64 → sextet (b64Char k) = some k := by decide

theorem b64Char_ne_pad : ∀ k, k < 64 → ¬ b64Char k = '=' := by decide

theorem sextet_pad : sextet '=' = none := rfl

theorem pad_not_nl : ('=' = '\n' ∨ '=' = '\r') = False := by decide

theorem decodeGo_encodeGroups :
    ∀ (bs : List Nat) (out : List Nat) (si : Nat), (∀ x ∈ bs, x < 256) →
      decodeGo out [] si (base64EncodeGroups bs) = Except.ok (out ++ bs)
  | [], out, si, _ => by simp [base64EncodeGroups, decodeGo]
  | [a], out, si, h => by
    have ha : a < 256 := h a (by simp)
    simp only [base64EncodeGroups, decodeGo, skipNL,
      sextet_b64Char (a / 4) (by omega),
      sextet_b64Char (a % 4 * 16) (by omega), sextet_pad, pad_not_nl,
      eq_self_iff_true, List.nil_append, List.cons_append, if_false, if_true,
      ite_false, ite_true]
    rw [show a / 4 * 4 + a % 4 * 16 / 16 = a from by omega]
  | [a, b], out, si, h => by
    have ha : a < 256 := h a (by simp)
    have hb : b < 256 := h b (by simp)
    simp only [base64EncodeGroups, decodeGo, skipNL,
      sextet_b64Char (a / 4) (by omega),
      sextet_b64Char (a % 4 * 16 + b / 16) (by omega),
      sextet_b64Char (b % 16 * 4) (by omega), sextet_pad, pad_not_nl,
      eq_self_iff_true, List.nil_append, List.cons_append, if_false, if_true,
      ite_false, ite_true]
    rw [show a / 4 * 4 + (a % 4 * 16 + b / 16) / 16 = a from by omega,
      show (a % 4 * 16 + b / 16) % 16 * 16 + b % 16 * 4 / 4 = b from by omega]
  | a :: b :: c :: rest, out, si, h => by
    have ha : a < 256 := h a (by simp)
    have hb : b < 256 := h b (by simp)
    have hc : c < 256 := h c (by simp)
    have ih := decodeGo_encodeGroups rest (out ++ [a, b, c]) (si + 4)
      (fun x hx => h x (by simp [hx]))
    simp only [base64EncodeGroups, decodeGo,
      sextet_b64Char (a / 4) (by omega),
      sextet_b64Char (a % 4 * 16 + b / 16) (by omega),
      sextet_b64Char (b % 16 * 4 + c / 64) (by omega),
      sextet_b64Char (c % 64) (by omega),
      List.nil_append, List.cons_append]
    rw [show a / 4 * 4 + (a % 4 * 16 + b / 16) / 16 = a from by omega,
      show (a % 4 * 16 + b / 16) % 16 * 16 + (b % 16 * 4 + c / 64) / 4 = b from by omega,
      show (b % 16 * 4 + c / 64) % 4 * 64 + c % 64 = c from by omega,
      show si + 1 + 1 + 1 + 1 = si + 4 from by omega, ih]
    simp

theorem base64Decode_base64Encode (bs : List Nat) (h : ∀ x ∈ bs, x < 256) :
    base64Decode (base64Encode bs) = Except.ok bs := by
  have := decodeGo_encodeGroups bs [] 0 h
  simpa [base64Decode, base64Encode] using this

/-- Fidelity of the decoder at the corner cases of Go's
`StdEncoding.DecodeString`: new line characters are ignored wherever they
occur, and the `CorruptInputError` positions of `decodeQuantum` are
reproduced (`"AB=x"` errs at byte 2, `"AA==x"` at byte 4, `"A!"` at
byte 1, `"A"` at byte 0, trailing data after a padded quantum at its own
index, a missing second padding character at the input length). -/
theorem base64Decode_go_corners :
    base64Decode "QQ==\n" = Except.ok [65] ∧
    base64Decode "Q\nQ\r==" = Except.ok [65] ∧
    base64Decode "\n\r" = Except.ok [] ∧
    base64Decode "AB=x" = Except.error (corrupt 2) ∧
    base64Decode "AA==x" = Except.error (corrupt 4) ∧
    base64Decode "A!" = Except.error (corrupt 1) ∧
    base64Decode "A" = Except.error (corrupt 0) ∧
    base64Decode "QQ==QQ==" = Except.error (corrupt 4) ∧
    base64Decode "QQ=" = Except.error (corrupt 3) :=
  ⟨rfl, rfl, rfl, rfl, rfl, rfl, rfl, rfl, rfl⟩

/-! ## The file system and the result type -/

/-- The uniform result of every bridge operation; the Go struct
`FlagResult` is constructed positionally as `FlagResult{flag, data}`. -/
structure FlagResult where
  flag : Bool
  data : String
deriving DecidableEq, Repr

/-- The file-system state the bridge manipulates: the set of existing
directories and the contents of existing regular files, both keyed by
resolved absolute path.  Permission bits and timestamps are not
modelled. -/
structure FS where
  dirs : List String
  files : List (String × List Nat)
deriving DecidableEq, Repr

/-- Content of the regular file at `p`, when one exists. -/
def lookupFile (fs : FS) (p : String) : Option (List Nat) :=
  match fs.files.find? (fun q => q.1 == p) with
  | some q => some q.2
  | none => none

/-- Creating or truncating the regular file at `p` with content `bs`
(`os.WriteFile`, `os.Create`, and `os.OpenFile` with `O_CREATE|O_TRUNC`
followed by a copy all have this effect). -/
def writeFileFS (fs : FS) (p : String) (bs : List Nat) : FS :=
  { fs with files := (p, bs) :: fs.files.filter (fun q => !(q.1 == p)) }

/-- The chain of directories `os.MkdirAll p` ensures, shortest first: one
per element of the normalized path (the root `"/"` itself always exists
and is not listed). -/
def ancestorPaths (p : String) : List String :=
  match p.data with
  | [] => []
  | c :: rest =>
    let cs := normComps (c = '/') (splitSlash (c :: rest))
    (List.range cs.length).map (fun k => List.asString (renderPath (c = '/') (cs.take (k + 1))))

/-- `os.MkdirAll`: creates the directory and any missing ancestors; no
effect on directories that already exist, no effect on files. -/
def mkdirAllFS (fs : FS) (p : String) : FS :=
  { fs with dirs := fs.dirs ++ (ancestorPaths p).filter (fun d => !(fs.dirs.contains d)) }

/-- `os.RemoveAll`: removes the path and everything below it; a missing
path is not an error. -/
def removeAllFS (fs : FS) (p : String) : FS :=
  { dirs := fs.dirs.filter (fun d => !(d == p || hasPre d (p ++ "/"))),
    files := fs.files.filter (fun q => !(q.1 == p || hasPre q.1 (p ++ "/"))) }

/-- Whether anything (directory or regular file) exists at `p`. -/
def pathExistsFS (fs : FS) (p : String) : Bool :=
  fs.dirs.contains p || (lookupFile fs p).isSome

/-! ## The bridge operations of `bridge/io.go` -/

/-- The `Binary` mode constant of `bridge/io.go`. -/
def Binary : String := "Binary"

/-- The `Text` mode constant of `bridge/io.go`. -/
def Text : String := "Text"

/-- Go `[]byte(s)`, modelling the bytes of a string as its character
codes. -/
def strBytes (s : String) : List Nat := s.data.map Char.toNat

/-- Go `string(b)`, the converse of `strBytes`. -/
def bytesStr (bs : List Nat) : String := List.asString (bs.map Char.ofNat)

/-- `Writefile` (`bridge/io.go`): resolve the path, `MkdirAll` its parent,
translate the content according to the mode — `Text` takes the raw bytes,
`Binary` base64-decodes and fails on invalid input, any other mode leaves
the initial empty buffer — then write the file.  `mkdirErr` and `writeErr`
are the outcomes of the two fallible OS calls. -/
def Writefile (basePath path content mode : String) (mkdirErr writeErr : Option String)
    (fs : FS) : FS × FlagResult :=
  let p := GetPath basePath path
  match mkdirErr with
  | some e => (fs, ⟨false, e⟩)
  | none =>
    let fs1 := mkdirAllFS fs (filepath.Dir p)
    match (if mode = Text then Except.ok (strBytes content)
           else if mode = Binary then base64Decode content
           else Except.ok []) with
    | Except.error e => (fs1, ⟨false, e⟩)
    | Except.ok b =>
      match writeErr with
      | some e => (fs1, ⟨false, e⟩)
      | none => (writeFileFS fs1 p b, ⟨true, "Success"⟩)

/-- `Readfile` (`bridge/io.go`): resolve the path, read the file (a
missing file is the modelled read failure; `readErr` covers any other
failure of `os.ReadFile`), translate according to the mode — `Text` the
raw bytes, `Binary` base64-encoded, any other mode the initial empty
content string. -/
def Readfile (basePath path mode : String) (readErr : Option String) (fs : FS) : FlagResult :=
  let p := GetPath basePath path
  match readErr with
  | some e => ⟨false, e⟩
  | none =>
    match lookupFile fs p with
    | none => ⟨false, "open " ++ p ++ ": no such file or directory"⟩
    | some b =>
      ⟨true, if mode = Text then bytesStr b
             else if mode = Binary then base64Encode b
             else ""⟩

/-- `Removefile` (`bridge/io.go`): resolve the path and `os.RemoveAll` it;
`osErr` is the outcome of the `RemoveAll` call (which does not fail for a
missing path). -/
def Removefile (basePath path : String) (osErr : Option String) (fs : FS) : FS × FlagResult :=
  let p := GetPath basePath path
  match osErr with
  | some e => (fs, ⟨false, e⟩)
  | none => (removeAllFS fs p, ⟨true, "Success"⟩)

/-- Outcome of `os.Stat`. -/
inductive StatOutcome where
  | found
  | notExist
  | failed (msg : String)

/-- `os.Stat` in the model: a permission-style failure is external
(`permErr`); otherwise the call reports whether anything exists at the
path. -/
def osStat (fs : FS) (p : String) (permErr : Option String) : StatOutcome :=
  match permErr with
  | some e => StatOutcome.failed e
  | none => if pathExistsFS fs p then StatOutcome.found else StatOutcome.notExist

/-- `FileExists` (`bridge/io.go`): message `"true"` when `Stat` succeeds,
`"false"` on a not-exist error, failure with the error text otherwise. -/
def FileExists (basePath path : String) (permErr : Option String) (fs : FS) : FlagResult :=
  match osStat fs (GetPath basePath path) permErr with
  | StatOutcome.found => ⟨true, "true"⟩
  | StatOutcome.notExist => ⟨true, "false"⟩
  | StatOutcome.failed e => ⟨false, e⟩

/-! ## ZIP extraction -/

/-- One record of the opened ZIP archive: `f.Name`,
`f.FileInfo().IsDir()`, and the bytes its reader yields. -/
structure ZipEntry where
  name : String
  isDir : Bool
  content : List Nat
deriving DecidableEq, Repr

/-- Outcomes of the fallible OS calls made while extracting one entry, in
program order: `os.MkdirAll`, `os.OpenFile`, `f.Open`, `io.Copy`. -/
structure EntryEff where
  mkdirErr : Option String
  openErr : Option String
  entryOpenErr : Option String
  copyErr : Option String
deriving DecidableEq, Repr

/-- An `EntryEff` in which every OS call succeeds. -/
def noEff : EntryEff := ⟨none, none, none, none⟩

/-- First error an entry's OS calls report, in program order. -/
def entryFirstErr (eff : EntryEff) : Option String :=
  match eff.mkdirErr with
  | some e => some e
  | none =>
    match eff.openErr with
    | some e => some e
    | none =>
      match eff.entryOpenErr with
      | some e => some e
      | none => eff.copyErr

/-- The entry loop of `UnzipZIPFile` (`bridge/io.go` lines 178–209):
`output` is the resolved output directory; each archive record is paired
with the outcomes of its OS calls.  A failing `MkdirAll` for a directory
entry is ignored by the code (its error value is dropped before
`continue`). -/
def unzipEntries (output : String) : List (ZipEntry × EntryEff) → FS → FS × FlagResult
  | [], fs => (fs, ⟨true, "Success"⟩)
  | (f, eff) :: rest, fs =>
    let filePath := filepath.Join output f.name
    if hasPre filePath (filepath.Clean output ++ "/") = false then
      (fs, ⟨false, "invalid file path"⟩)
    else if f.isDir then
      match eff.mkdirErr with
      | some _ => unzipEntries output rest fs
      | none => unzipEntries output rest (mkdirAllFS fs filePath)
    else
      match eff.mkdirErr with
      | some e => (fs, ⟨false, e⟩)
      | none =>
        let fs1 := mkdirAllFS fs (filepath.Dir filePath)
        match eff.openErr with
        | some e => (fs1, ⟨false, e⟩)
        | none =>
          let fs2 := writeFileFS fs1 filePath []
          match eff.entryOpenErr with
          | some e => (fs2, ⟨false, e⟩)
          | none =>
            match eff.copyErr with
            | some e => (fs2, ⟨false, e⟩)
            | none => unzipEntries output rest (writeFileFS fs2 filePath f.content)

/-- `UnzipZIPFile` (`bridge/io.go`): resolve both paths, open the archive
(`openErr` is the outcome of `zip.OpenReader`, `entries` what the opened
archive contains), then run the entry loop. -/
def UnzipZIPFile (basePath zipPath outputDir : String) (openErr : Option String)
    (entries : List (ZipEntry × EntryEff)) (fs : FS) : FS × FlagResult :=
  let _ := GetPath basePath zipPath
  let output := GetPath basePath outputDir
  match openErr with
  | some e => (fs, ⟨false, e⟩)
  | none => unzipEntries output entries fs

/-! ## GZip extraction -/

/-- Outcomes of the fallible calls of `UnzipGZFile`, in program order:
`os.Open`, `os.Create`, `gzip.NewReader`, `io.Copy`. -/
structure GzEff where
  openErr : Option String
  createErr : Option String
  readerErr : Option String
  copyErr : Option String
deriving DecidableEq, Repr

/-- `UnzipGZFile` (`bridge/io.go`): open the input, create/truncate the
output file, construct the decompressing reader, copy the decompressed
bytes (`content` is what the stream yields when every call succeeds).  In
the code `os.Create` runs before `gzip.NewReader`. -/
def UnzipGZFile (basePath path output : String) (eff : GzEff) (content : List Nat)
    (fs : FS) : FS × FlagResult :=
  let _ := GetPath basePath path
  let out := GetPath basePath output
  match eff.openErr with
  | some e => (fs, ⟨false, e⟩)
  | none =>
    match eff.createErr with
    | some e => (fs, ⟨false, e⟩)
    | none =>
      let fs1 := writeFileFS fs out []
      match eff.readerErr with
      | some e => (fs1, ⟨false, e⟩)
      | none =>
        match eff.copyErr with
        | some e => (fs1, ⟨false, e⟩)
        | none => (writeFileFS fs1 out content, ⟨true, "Success"⟩)

/-! ## Facts about the file-system model -/

theorem lookupFile_writeFileFS_self (fs : FS) (p : String) (bs : List Nat) :
    lookupFile (writeFileFS fs p bs) p = some bs := by
  simp [lookupFile, writeFileFS]

theorem mkdirAllFS_files (fs : FS) (p : String) : (mkdirAllFS fs p).files = fs.files := rfl

theorem mem_writeFileFS_files (fs : FS) (p : String) (bs : List Nat)
    (q : String × List Nat) (hq : q ∈ (writeFileFS fs p bs).files) :
    q = (p, bs) ∨ q ∈ fs.files := by
  simp only [writeFileFS] at hq
  rcases List.mem_cons.mp hq with rfl | hq
  · exact Or.inl rfl
  · exact Or.inr (List.mem_filter.mp hq).1

/-! ## The Zip-Slip defense of `UnzipZIPFile` (claim C1) -/

theorem unzipEntries_files_containment (output : String) :
    ∀ (entries : List (ZipEntry × EntryEff)) (fs : FS),
      ∀ q ∈ (unzipEntries output entries fs).1.files,
        q ∈ fs.files ∨ hasPre q.1 (filepath.Clean output ++ "/") = true := by
  intro entries
  induction entries with
  | nil => intro fs q hq; exact Or.inl hq
  | cons pe rest ih =>
    obtain ⟨f, eff⟩ := pe
    intro fs q hq
    by_cases hchk : hasPre (filepath.Join output f.name) (filepath.Clean output ++ "/") = false
    · simp only [unzipEntries, if_pos hchk] at hq
      exact Or.inl hq
    · have hpre : hasPre (filepath.Join output f.name) (filepath.Clean output ++ "/") = true := by
        revert hchk
        cases hasPre (filepath.Join output f.name) (filepath.Clean output ++ "/") <;> simp
      by_cases hdir : f.isDir = true
      · simp only [unzipEntries, if_neg hchk, if_pos hdir] at hq
        cases hmk : eff.mkdirErr with
        | some e1 =>
          rw [hmk] at hq
          exact ih fs q hq
        | none =>
          rw [hmk] at hq
          rcases ih _ q hq with hin | hp
          · exact Or.inl hin
          · exact Or.inr hp
      · simp only [unzipEntries, if_neg hchk, if_neg hdir] at hq
        cases hmk : eff.mkdirErr with
        | some e1 => rw [hmk] at hq; exact Or.inl hq
        | none =>
          rw [hmk] at hq
          cases hop : eff.openErr with
          | some e1 => rw [hop] at hq; exact Or.inl hq
          | none =>
            rw [hop] at hq
            cases hen : eff.entryOpenErr with
            | some e1 =>
              rw [hen] at hq
              rcases mem_writeFileFS_files _ _ _ q hq with rfl | hin
              · exact Or.inr hpre
              · exact Or.inl hin
            | none =>
              rw [hen] at hq
              cases hcp : eff.copyErr with
              | some e1 =>
                rw [hcp] at hq
                rcases mem_writeFileFS_files _ _ _ q hq with rfl | hin
                · exact Or.inr hpre
                · exact Or.inl hin
              | none =>
                rw [hcp] at hq
                rcases ih _ q hq with hin | hp
                · rcases mem_writeFileFS_files _ _ _ q hin with rfl | hin2
                  · exact Or.inr hpre
                  · rcases mem_writeFileFS_files _ _ _ q hin2 with rfl | hin3
                    · exact Or.inr hpre
                    · exact Or.inl hin3
                · exact Or.inr hp

theorem unzipEntries_bad_result (output : String) :
    ∀ (entries : List (ZipEntry × EntryEff)) (fs : FS),
      (∀ pe ∈ entries, pe.2 = noEff) →
      (∃ pe ∈ entries,
        hasPre (filepath.Join output pe.1.name) (filepath.Clean output ++ "/") = false) →
      (unzipEntries output entries fs).2 = ⟨false, "invalid file path"⟩ := by
  intro entries
  induction entries with
  | nil => intro fs _ hbad; simp at hbad
  | cons pe rest ih =>
    obtain ⟨f, eff⟩ := pe
    intro fs hclean hbad
    have heff : eff = noEff := hclean (f, eff) (List.mem_cons_self _ _)
    subst heff
    by_cases hchk : hasPre (filepath.Join output f.name) (filepath.Clean output ++ "/") = false
    · simp only [unzipEntries, if_pos hchk]
    · have hbad' : ∃ pe ∈ rest,
          hasPre (filepath.Join output pe.1.name) (filepath.Clean output ++ "/") = false := by
        rcases hbad with ⟨pe', hpe', hb⟩
        rcases List.mem_cons.mp hpe' with rfl | hmem
        · exact absurd hb hchk
        · exact ⟨pe', hmem, hb⟩
      have hclean' : ∀ pe ∈ rest, pe.2 = noEff :=
        fun pe hpe => hclean pe (List.mem_cons_of_mem _ hpe)
      by_cases hdir : f.isDir = true
      · simp only [unzipEntries, if_neg hchk, if_pos hdir, noEff]
        exact ih _ hclean' hbad'
      · simp only [unzipEntries, if_neg hchk, if_neg hdir, noEff]
        exact ih _ hclean' hbad'

/-- C1 — for every archive that contains an entry whose name, joined with
the resolved output directory and normalized, does not have the normalized
output directory followed by the path separator as a prefix, and in which
no external OS failure intervenes, `UnzipZIPFile` returns `ok=false` with
the message `"invalid file path"`, and every file the whole operation ever
created lies strictly inside the output directory. -/
theorem UnzipZIPFile_zip_slip (basePath zipPath outputDir : String)
    (entries : List (ZipEntry × EntryEff)) (fs : FS)
    (hclean : ∀ pe ∈ entries, pe.2 = noEff)
    (hbad : ∃ pe ∈ entries,
      hasPre (filepath.Join (GetPath basePath outputDir) pe.1.name)
        (filepath.Clean (GetPath basePath outputDir) ++ "/") = false) :
    (UnzipZIPFile basePath zipPath outputDir none entries fs).2 =
      ⟨false, "invalid file path"⟩ ∧
    ∀ q ∈ (UnzipZIPFile basePath zipPath outputDir none entries fs).1.files,
      q ∈ fs.files ∨
        hasPre q.1 (filepath.Clean (GetPath basePath outputDir) ++ "/") = true :=
  ⟨unzipEntries_bad_result (GetPath basePath outputDir) entries fs hclean hbad,
    fun q hq => unzipEntries_files_containment (GetPath basePath outputDir) entries fs q hq⟩

/-- Witness for C1: a concrete archive holding the entry
`"../../evil.txt"`, extracted into `/out`. -/
theorem UnzipZIPFile_zip_slip_witness :
    (UnzipZIPFile "/" "/a.zip" "/out" none
        [(⟨"../../evil.txt", false, [1]⟩, noEff)] ⟨["/", "/out"], []⟩).2 =
      ⟨false, "invalid file path"⟩ ∧
    ∀ q ∈ (UnzipZIPFile "/" "/a.zip" "/out" none
        [(⟨"../../evil.txt", false, [1]⟩, noEff)] ⟨["/", "/out"], []⟩).1.files,
      q ∈ (⟨["/", "/out"], []⟩ : FS).files ∨
        hasPre q.1 (filepath.Clean (GetPath "/" "/out") ++ "/") = true :=
  UnzipZIPFile_zip_slip "/" "/a.zip" "/out"
    [(⟨"../../evil.txt", false, [1]⟩, noEff)] ⟨["/", "/out"], []⟩
    (by decide) (by decide)

/-! ## Error handling of the entry loop (claim C2) -/

/-- C2 counterexample — a ZIP archive whose single entry is a directory
whose `os.MkdirAll` call fails: the error value is discarded at
`bridge/io.go` line 186 and the loop continues, so the whole operation
returns `ok=true` with `"Success"`, not `ok=false` as the claim states. -/
theorem UnzipZIPFile_dir_mkdir_error_ignored :
    UnzipZIPFile "/" "/a.zip" "/out" none
        [(⟨"a/", true, []⟩, ⟨some "mkdir /out/a: disk quota exceeded", none, none, none⟩)]
        ⟨["/", "/out"], []⟩ =
      (⟨["/", "/out"], []⟩, ⟨true, "Success"⟩) := by
  decide

/-- C2 amended — an I/O failure while processing a *file* entry (creating
ancestors, opening the destination, opening the entry stream, or copying
bytes) aborts the whole operation at once, whatever entries remain, and
returns `ok=false` with the underlying error message; a failure of the
directory-creation call for a *directory* entry is ignored and extraction
continues with the next entry. -/
theorem UnzipZIPFile_file_entry_error_aborts (basePath zipPath outputDir : String)
    (f : ZipEntry) (eff : EntryEff) (rest : List (ZipEntry × EntryEff)) (fs : FS)
    (e : String) (hdir : f.isDir = false)
    (hchk : hasPre (filepath.Join (GetPath basePath outputDir) f.name)
      (filepath.Clean (GetPath basePath outputDir) ++ "/") = true)
    (herr : entryFirstErr eff = some e) :
    (UnzipZIPFile basePath zipPath outputDir none ((f, eff) :: rest) fs).2 = ⟨false, e⟩ := by
  show (unzipEntries (GetPath basePath outputDir) ((f, eff) :: rest) fs).2 = ⟨false, e⟩
  have hchk' : ¬ hasPre (filepath.Join (GetPath basePath outputDir) f.name)
      (filepath.Clean (GetPath basePath outputDir) ++ "/") = false := by
    rw [hchk]; simp
  cases hmk : eff.mkdirErr with
  | some e1 =>
    have he : e1 = e := by simpa [entryFirstErr, hmk] using herr
    subst he
    simp [unzipEntries, hchk', hdir, hmk]
  | none =>
    cases hop : eff.openErr with
    | some e1 =>
      have he : e1 = e := by simpa [entryFirstErr, hmk, hop] using herr
      subst he
      simp [unzipEntries, hchk', hdir, hmk, hop]
    | none =>
      cases hen : eff.entryOpenErr with
      | some e1 =>
        have he : e1 = e := by simpa [entryFirstErr, hmk, hop, hen] using herr
        subst he
        simp [unzipEntries, hchk', hdir, hmk, hop, hen]
      | none =>
        have hcp : eff.copyErr = some e := by simpa [entryFirstErr, hmk, hop, hen] using herr
        simp [unzipEntries, hchk', hdir, hmk, hop, hen, hcp]

/-- Witness for the amended C2 at a file entry whose destination cannot be
opened. -/
theorem UnzipZIPFile_file_entry_error_aborts_witness :
    ((⟨"a/b.txt", false, [1, 2]⟩ : ZipEntry).isDir = false) ∧
    hasPre (filepath.Join (GetPath "/" "/out") "a/b.txt")
      (filepath.Clean (GetPath "/" "/out") ++ "/") = true ∧
    entryFirstErr ⟨none, some "open /out/a/b.txt: permission denied", none, none⟩ =
      some "open /out/a/b.txt: permission denied" ∧
    (UnzipZIPFile "/" "/a.zip" "/out" none
        [(⟨"a/b.txt", false, [1, 2]⟩,
          ⟨none, some "open /out/a/b.txt: permission denied", none, none⟩)]
        ⟨["/", "/out"], []⟩).2 =
      ⟨false, "open /out/a/b.txt: permission denied"⟩ :=
  ⟨rfl, by decide, rfl,
    UnzipZIPFile_file_entry_error_aborts "/" "/a.zip" "/out" ⟨"a/b.txt", false, [1, 2]⟩
      ⟨none, some "open /out/a/b.txt: permission denied", none, none⟩ [] ⟨["/", "/out"], []⟩
      "open /out/a/b.txt: permission denied" rfl (by decide) rfl⟩

/-! ## GZip extraction order (claim C3) -/

/-- C3 counterexample — the input file opens but is not a valid GZip
stream: `UnzipGZFile` returns `ok=false` with the underlying message, yet
the output file *has* been created (truncated to empty), because
`os.Create` at `bridge/io.go` line 225 runs before `gzip.NewReader` at
line 231, contrary to the claimed order. -/
theorem UnzipGZFile_output_created_despite_bad_stream :
    (UnzipGZFile "/" "/in.gz" "/out.txt" ⟨none, none, some "gzip: invalid header", none⟩ []
        ⟨["/"], []⟩).2 = ⟨false, "gzip: invalid header"⟩ ∧
    lookupFile (UnzipGZFile "/" "/in.gz" "/out.txt"
        ⟨none, none, some "gzip: invalid header", none⟩ [] ⟨["/"], []⟩).1
      (GetPath "/" "/out.txt") = some [] := by
  constructor
  · decide
  · decide

/-- C3 amended — `UnzipGZFile` resolves both paths, opens the input file,
then creates/truncates the output file, and only then wraps the input in
the decompressing reader; consequently, when the input opens but is not a
valid GZip stream, the operation returns `ok=false` with the underlying
message and the output file exists, created or truncated to empty. -/
theorem UnzipGZFile_reader_failure (basePath path output : String) (e : String)
    (content : List Nat) (fs : FS) :
    UnzipGZFile basePath path output ⟨none, none, some e, none⟩ content fs =
      (writeFileFS fs (GetPath basePath output) [], ⟨false, e⟩) ∧
    lookupFile (UnzipGZFile basePath path output ⟨none, none, some e, none⟩ content fs).1
      (GetPath basePath output) = some [] :=
  ⟨rfl, lookupFile_writeFileFS_self fs (GetPath basePath output) []⟩

/-! ## Well-formed extraction (claim C4) -/

set_option maxHeartbeats 2000000 in
/-- C4 — extracting the spec's exemplar well-formed archive (a directory
entry `"a/"` and a file entry `"a/b.txt"` with arbitrary stored bytes `c`)
into the existing output directory `/out` creates exactly the directory
`/out/a` and the file `/out/a/b.txt` with content `c`, and returns
`ok=true` with `"Success"`. -/
theorem UnzipZIPFile_wellformed_archive (c : List Nat) :
    UnzipZIPFile "/" "/a.zip" "/out" none
        [(⟨"a/", true, []⟩, noEff), (⟨"a/b.txt", false, c⟩, noEff)]
        ⟨["/", "/out"], []⟩ =
      (⟨["/", "/out", "/out/a"], [("/out/a/b.txt", c)]⟩, ⟨true, "Success"⟩) := rfl

/-! ## Binary-mode round trip (claims C5, C6) -/

/-- C5 — for every byte sequence `b`, writing `base64Encode b` with
`Writefile` in `Binary` mode succeeds, stores exactly the bytes `b` on
disk, and reading the same path back with `Readfile` in `Binary` mode
succeeds and returns `base64Encode b` again. -/
theorem Writefile_Readfile_binary_roundtrip (basePath path : String) (b : List Nat)
    (fs : FS) (hb : ∀ x ∈ b, x < 256) :
    (Writefile basePath path (base64Encode b) Binary none none fs).2 =
      ⟨true, "Success"⟩ ∧
    lookupFile (Writefile basePath path (base64Encode b) Binary none none fs).1
      (GetPath basePath path) = some b ∧
    Readfile basePath path Binary none
      (Writefile basePath path (base64Encode b) Binary none none fs).1 =
      ⟨true, base64Encode b⟩ := by
  have hdec := base64Decode_base64Encode b hb
  have hwf : Writefile basePath path (base64Encode b) Binary none none fs =
      (writeFileFS (mkdirAllFS fs (filepath.Dir (GetPath basePath path)))
        (GetPath basePath path) b, ⟨true, "Success"⟩) := by
    simp [Writefile, Binary, Text, hdec]
  rw [hwf]
  refine ⟨rfl, lookupFile_writeFileFS_self _ _ _, ?_⟩
  simp [Readfile, Binary, Text, lookupFile_writeFileFS_self]

/-- Witness for C5 at the byte sequence `[0, 255, 7]`. -/
theorem Writefile_Readfile_binary_roundtrip_witness :
    (∀ x ∈ [0, 255, 7], x < 256) ∧
    ((Writefile "/" "/d/f.bin" (base64Encode [0, 255, 7]) Binary none none
        ⟨["/"], []⟩).2 = ⟨true, "Success"⟩ ∧
      lookupFile (Writefile "/" "/d/f.bin" (base64Encode [0, 255, 7]) Binary none none
        ⟨["/"], []⟩).1 (GetPath "/" "/d/f.bin") = some [0, 255, 7] ∧
      Readfile "/" "/d/f.bin" Binary none
        (Writefile "/" "/d/f.bin" (base64Encode [0, 255, 7]) Binary none none
          ⟨["/"], []⟩).1 = ⟨true, base64Encode [0, 255, 7]⟩) :=
  ⟨by decide,
    Writefile_Readfile_binary_roundtrip "/" "/d/f.bin" [0, 255, 7] ⟨["/"], []⟩ (by decide)⟩

/-- C6 — when the content string is not valid base64, `Writefile` in
`Binary` mode returns `ok=false` carrying the decode error message and
leaves the files of the file system untouched (the parent-directory
`MkdirAll` has already run, but nothing is written). -/
theorem Writefile_invalid_base64 (basePath path content : String) (e : String)
    (werr : Option String) (fs : FS)
    (hdec : base64Decode content = Except.error e) :
    (Writefile basePath path content Binary none werr fs).2 = ⟨false, e⟩ ∧
    (Writefile basePath path content Binary none werr fs).1.files = fs.files := by
  have hwf : Writefile basePath path content Binary none werr fs =
      (mkdirAllFS fs (filepath.Dir (GetPath basePath path)), ⟨false, e⟩) := by
    simp [Writefile, Binary, Text, hdec]
  rw [hwf]
  exact ⟨rfl, rfl⟩

/-- Witness for C6 at the invalid content string `"!bad"`. -/
theorem Writefile_invalid_base64_witness :
    base64Decode "!bad" = Except.error "illegal base64 data at input byte 0" ∧
    (Writefile "/" "/d/f.bin" "!bad" Binary none none ⟨["/"], []⟩).2 =
      ⟨false, "illegal base64 data at input byte 0"⟩ ∧
    (Writefile "/" "/d/f.bin" "!bad" Binary none none ⟨["/"], []⟩).1.files =
      (⟨["/"], []⟩ : FS).files :=
  ⟨rfl,
    (Writefile_invalid_base64 "/" "/d/f.bin" "!bad"
      "illegal base64 data at input byte 0" none ⟨["/"], []⟩ rfl).1,
    (Writefile_invalid_base64 "/" "/d/f.bin" "!bad"
      "illegal base64 data at input byte 0" none ⟨["/"], []⟩ rfl).2⟩

/-! ## `FileExists` (claim C7) -/

/-- C7 — `FileExists` answers `ok=true,"true"` when the stat of the
resolved path succeeds, `ok=true,"false"` when the stat fails with a
not-found error, and `ok=false` carrying the error text for any other stat
failure. -/
theorem FileExists_trichotomy (basePath path : String) (fs : FS) :
    (pathExistsFS fs (GetPath basePath path) = true →
      FileExists basePath path none fs = ⟨true, "true"⟩) ∧
    (pathExistsFS fs (GetPath basePath path) = false →
      FileExists basePath path none fs = ⟨true, "false"⟩) ∧
    ∀ e, FileExists basePath path (some e) fs = ⟨false, e⟩ := by
  refine ⟨fun h => ?_, fun h => ?_, fun e => rfl⟩
  · simp [FileExists, osStat, h]
  · simp [FileExists, osStat, h]

/-- Witness for C7: an existing directory, a missing path, and a
permission failure. -/
theorem FileExists_trichotomy_witness :
    FileExists "/" "/d" none ⟨["/", "/d"], []⟩ = ⟨true, "true"⟩ ∧
    FileExists "/" "/nope" none ⟨["/", "/d"], []⟩ = ⟨true, "false"⟩ ∧
    FileExists "/" "/d" (some "permission denied") ⟨["/", "/d"], []⟩ =
      ⟨false, "permission denied"⟩ :=
  ⟨(FileExists_trichotomy "/" "/d" ⟨["/", "/d"], []⟩).1 (by decide),
    (FileExists_trichotomy "/" "/nope" ⟨["/", "/d"], []⟩).2.1 (by decide),
    (FileExists_trichotomy "/" "/d" ⟨["/", "/d"], []⟩).2.2 "permission denied"⟩

/-! ## Unknown mode (claim C9) -/

/-- C9 — a mode other than `"Text"` and `"Binary"` is not reported as an
error: `Writefile` writes the untouched empty buffer (a 0-byte file) and
returns `ok=true,"Success"`, and `Readfile` of any existing file returns
`ok=true` with the empty content string, whatever the file holds. -/
theorem Writefile_Readfile_unknown_mode (basePath path content mode : String)
    (fs fs2 : FS) (b : List Nat)
    (hmode1 : mode ≠ Text) (hmode2 : mode ≠ Binary)
    (hfile : lookupFile fs2 (GetPath basePath path) = some b) :
    (Writefile basePath path content mode none none fs).2 = ⟨true, "Success"⟩ ∧
    lookupFile (Writefile basePath path content mode none none fs).1
      (GetPath basePath path) = some [] ∧
    Readfile basePath path mode none fs2 = ⟨true, ""⟩ := by
  have hwf : Writefile basePath path content mode none none fs =
      (writeFileFS (mkdirAllFS fs (filepath.Dir (GetPath basePath path)))
        (GetPath basePath path) [], ⟨true, "Success"⟩) := by
    simp [Writefile, hmode1, hmode2]
  rw [hwf]
  refine ⟨rfl, lookupFile_writeFileFS_self _ _ _, ?_⟩
  simp [Readfile, hfile, hmode1, hmode2]

/-- Witness for C9 at the mode string `"Bogus"`. -/
theorem Writefile_Readfile_unknown_mode_witness :
    ("Bogus" ≠ Text) ∧ ("Bogus" ≠ Binary) ∧
    lookupFile ⟨["/"], [("/d/f.bin", [7, 9])]⟩ (GetPath "/" "/d/f.bin") = some [7, 9] ∧
    ((Writefile "/" "/d/f.bin" "whatever" "Bogus" none none ⟨["/"], []⟩).2 =
      ⟨true, "Success"⟩ ∧
    lookupFile (Writefile "/" "/d/f.bin" "whatever" "Bogus" none none ⟨["/"], []⟩).1
      (GetPath "/" "/d/f.bin") = some [] ∧
    Readfile "/" "/d/f.bin" "Bogus" none ⟨["/"], [("/d/f.bin", [7, 9])]⟩ = ⟨true, ""⟩) :=
  ⟨by decide, by decide, by decide,
    Writefile_Readfile_unknown_mode "/" "/d/f.bin" "whatever" "Bogus"
      ⟨["/"], []⟩ ⟨["/"], [("/d/f.bin", [7, 9])]⟩ [7, 9]
      (by decide) (by decide) (by decide)⟩

/-! ## `Removefile` (claim C10) -/

/-- C10 — `Removefile` with a successful `RemoveAll` call always returns
`ok=true,"Success"` — in particular when nothing exists at the resolved
path, which `os.RemoveAll` does not report as an error — and removes
recursively: afterwards no file and no directory remains at or below the
resolved path, while every file elsewhere is kept. -/
theorem Removefile_recursive (basePath path : String) (fs : FS) :
    (Removefile basePath path none fs).2 = ⟨true, "Success"⟩ ∧
    (∀ q ∈ (Removefile basePath path none fs).1.files,
      q ∈ fs.files ∧ ¬ q.1 = GetPath basePath path ∧
        hasPre q.1 (GetPath basePath path ++ "/") = false) ∧
    (∀ d ∈ (Removefile basePath path none fs).1.dirs,
      d ∈ fs.dirs ∧ ¬ d = GetPath basePath path ∧
        hasPre d (GetPath basePath path ++ "/") = false) ∧
    (∀ q ∈ fs.files, ¬ q.1 = GetPath basePath path →
      hasPre q.1 (GetPath basePath path ++ "/") = false →
      q ∈ (Removefile basePath path none fs).1.files) ∧
    (pathExistsFS fs (GetPath basePath path) = false →
      (Removefile basePath path none fs).2 = ⟨true, "Success"⟩) := by
  refine ⟨rfl, ?_, ?_, ?_, fun _ => rfl⟩
  · intro q hq
    have h := List.mem_filter.mp hq
    refine ⟨h.1, ?_, ?_⟩
    · have h2 := h.2
      simp only [Bool.not_eq_eq_eq_not, Bool.not_true, Bool.or_eq_false_iff] at h2
      have := h2.1
      simpa using this
    · have h2 := h.2
      simp only [Bool.not_eq_eq_eq_not, Bool.not_true, Bool.or_eq_false_iff] at h2
      exact h2.2
  · intro d hd
    have h := List.mem_filter.mp hd
    refine ⟨h.1, ?_, ?_⟩
    · have h2 := h.2
      simp only [Bool.not_eq_eq_eq_not, Bool.not_true, Bool.or_eq_false_iff] at h2
      have := h2.1
      simpa using this
    · have h2 := h.2
      simp only [Bool.not_eq_eq_eq_not, Bool.not_true, Bool.or_eq_false_iff] at h2
      exact h2.2
  · intro q hq h1 h2
    refine List.mem_filter.mpr ⟨hq, ?_⟩
    simp only [Bool.not_eq_eq_eq_not, Bool.not_true, Bool.or_eq_false_iff]
    constructor
    · simpa using h1
    · exact h2

/-- Witness for C10: removing `/d` clears the directory, its file, its
subdirectory and the file below that, and keeps `/e` with its file. -/
theorem Removefile_recursive_witness :
    Removefile "/" "/d" none
        ⟨["/", "/d", "/d/sub", "/e"], [("/d/f", [1]), ("/d/sub/g", [2]), ("/e/h", [3])]⟩ =
      (⟨["/", "/e"], [("/e/h", [3])]⟩, ⟨true, "Success"⟩) ∧
    (Removefile "/" "/nothing" none ⟨["/", "/e"], [("/e/h", [3])]⟩).2 =
      ⟨true, "Success"⟩ :=
  ⟨by decide,
    (Removefile_recursive "/" "/nothing" ⟨["/", "/e"], [("/e/h", [3])]⟩).2.2.2.2 (by decide)⟩
